import Mathlib

/-!
Shallow embedding of the sales-analytics core of the `rv-takehome` repository:
the pure aggregation functions in `src/lib/business/deals/analytics.ts` and
`src/lib/business/deals/territories.ts`, and the derived metrics computed by
the forecasting components (`RevenueForecasting.tsx`, `AtRiskDeals.tsx`,
`DealVelocityMetrics.tsx`).

Modelling conventions:
* JavaScript numbers are modelled as exact rationals (`ℚ`) for monetary values
  and probabilities, and as `Int` milliseconds-since-epoch for timestamps.
* A JavaScript `Record<string, V>` (a plain object used as a map, with
  insertion-ordered keys) is modelled as an association list `List (String × V)`
  where a fresh key is appended at the end, matching JS property order.
* `Math.floor` of a division of timestamp differences is modelled with `Int.fdiv`
  (flooring division), and `Math.round` as `⌊x + 1/2⌋`.
-/

namespace RV

/-- A deal record, from the `Deal` entity shape used by the analytics code.
Timestamps are milliseconds since the epoch (the value of `Date.getTime()`). -/
structure Deal where
  id : Nat
  stage : String
  value : ℚ
  probability : ℚ
  transportation_mode : String
  sales_rep : String
  origin_city : String
  created_date : Int
  updated_date : Int
  deriving Repr, DecidableEq

/-! ### Association lists: the model of JS `Record<string, V>` -/

/-- Lookup a key in an insertion-ordered association list (JS `obj[k]`,
`some` when the property exists). -/
def alookup {V : Type} (k : String) : List (String × V) → Option V
  | [] => none
  | (k', v) :: rest => if k' = k then some v else alookup k rest

/-- The JS idiom `if (!obj[k]) obj[k] = init; obj[k] = f(obj[k])`:
modify the value at `k` in place if present, otherwise append `(k, f init)`
at the end (JS inserts new properties in insertion order). -/
def upsert {V : Type} (k : String) (f : V → V) (init : V) :
    List (String × V) → List (String × V)
  | [] => [(k, f init)]
  | (k', v) :: rest =>
      if k' = k then (k, f v) :: rest else (k', v) :: upsert k f init rest

/-- Map a function over the values of an association list (the post-pass
`Object.keys(m).forEach(k => m[k] = f(m[k]))`). -/
def amap {V W : Type} (f : V → W) : List (String × V) → List (String × W)
  | [] => []
  | (k, v) :: rest => (k, f v) :: amap f rest

theorem alookup_upsert_self {V : Type} (k : String) (f : V → V) (init : V)
    (m : List (String × V)) :
    alookup k (upsert k f init m) = some (f ((alookup k m).getD init)) := by
  induction m with
  | nil => simp [alookup, upsert]
  | cons p rest ih =>
      obtain ⟨k', v⟩ := p
      by_cases h : k' = k
      · subst h; simp [alookup, upsert]
      · simp [alookup, upsert, h, ih]

theorem alookup_upsert_ne {V : Type} (k k' : String) (f : V → V) (init : V)
    (m : List (String × V)) (hne : k' ≠ k) :
    alookup k (upsert k' f init m) = alookup k m := by
  induction m with
  | nil => simp [alookup, upsert, hne]
  | cons p rest ih =>
      obtain ⟨k'', v⟩ := p
      by_cases h : k'' = k'
      · subst h; simp [alookup, upsert, hne]
      · by_cases h2 : k'' = k
        · subst h2; simp [alookup, upsert, h]
        · simp [alookup, upsert, h, h2, ih]

theorem alookup_amap {V W : Type} (f : V → W) (k : String)
    (m : List (String × V)) :
    alookup k (amap f m) = (alookup k m).map f := by
  induction m with
  | nil => simp [alookup, amap]
  | cons p rest ih =>
      obtain ⟨k', v⟩ := p
      by_cases h : k' = k
      · subst h; simp [alookup, amap]
      · simp [alookup, amap, h, ih]

/-- The keyed-fold pattern shared by all the aggregators: one pass over the
input, each element upserting the bucket of its key. `κ` extracts the key,
`μ` is the per-element bucket modifier, `init` the fresh-bucket value. -/
def keyedFold {α V : Type} (κ : α → String) (μ : V → α → V) (init : V)
    (m : List (String × V)) (xs : List α) : List (String × V) :=
  xs.foldl (fun acc x => upsert (κ x) (fun v => μ v x) init acc) m

/-- Localization: the bucket of key `k` after a keyed fold is the plain fold of
the modifier over the elements whose key is `k`, and the bucket exists iff it
existed before or some element has key `k`. -/
theorem alookup_keyedFold {α V : Type} (κ : α → String) (μ : V → α → V)
    (init : V) (k : String) (xs : List α) (m : List (String × V)) :
    alookup k (keyedFold κ μ init m xs) =
      match alookup k m, xs.filter (fun x => κ x = k) with
      | some v, l => some (l.foldl μ v)
      | none, [] => none
      | none, l => some (l.foldl μ init) := by
  induction xs generalizing m with
  | nil =>
      simp only [keyedFold, List.foldl_nil, List.filter_nil]
      cases alookup k m <;> rfl
  | cons x xs ih =>
      simp only [keyedFold, List.foldl_cons] at *
      rw [ih]
      by_cases hk : κ x = k
      · rw [hk, alookup_upsert_self]
        simp only [List.filter_cons, hk]
        cases h : alookup k m with
        | some v => simp [h]
        | none =>
            simp only [h, Option.getD_none]
            cases hf : xs.filter (fun x => decide (κ x = k)) <;> simp_all
      · rw [alookup_upsert_ne _ _ _ _ _ hk]
        simp only [List.filter_cons, hk]
        simp [hk]

/-! ### territories.ts -/

/-- The character class `\s` of JavaScript regular expressions. -/
def jsSpace (c : Char) : Bool :=
  c = ' ' || c = '\t' || c = '\n' || c = '\r' ||
  c = Char.ofNat 0x0b || c = Char.ofNat 0x0c || c = Char.ofNat 0xa0 ||
  c = Char.ofNat 0x1680 || (0x2000 ≤ c.toNat && c.toNat ≤ 0x200a) ||
  c = Char.ofNat 0x2028 || c = Char.ofNat 0x2029 || c = Char.ofNat 0x202f ||
  c = Char.ofNat 0x205f || c = Char.ofNat 0x3000 || c = Char.ofNat 0xfeff

/-- The character class `[A-Z]` of JavaScript regular expressions. -/
def asciiUpper (c : Char) : Bool := 'A' ≤ c && c ≤ 'Z'

/-- `STATE_TO_TERRITORY` from territories.ts, in source order. -/
def STATE_TO_TERRITORY : List (String × String) :=
  [("CA", "Pacific"), ("WA", "Pacific"), ("OR", "Pacific"),
   ("CO", "Mountain"), ("AZ", "Mountain"), ("NM", "Mountain"), ("UT", "Mountain"),
   ("IL", "Midwest"), ("MN", "Midwest"), ("MO", "Midwest"),
   ("NY", "Northeast"), ("MA", "Northeast"),
   ("FL", "Southeast"), ("GA", "Southeast"),
   ("TX", "Southwest"), ("NV", "Southwest")]

/-- `extractStateFromOriginCity`: `if (!originCity) return null;` then match the
anchored regex `/,\s*([A-Z]{2})$/` — the match succeeds exactly when the string
ends in two ASCII uppercase letters, preceded by zero or more `\s` characters,
preceded by a comma; the captured group is those last two letters. Checked here
by scanning the reversed character list. -/
def extractStateFromOriginCity (originCity : String) : Option String :=
  if originCity = "" then none
  else
    match originCity.data.reverse with
    | c1 :: c2 :: rest =>
        if asciiUpper c1 && asciiUpper c2 then
          match rest.dropWhile jsSpace with
          | c :: _ => if c = ',' then some (String.mk [c2, c1]) else none
          | [] => none
        else none
    | _ => none

/-- `getTerritory`: null (or falsy) state code resolves to "Other", otherwise a
lookup in `STATE_TO_TERRITORY` with `|| "Other"` as the miss fallback. -/
def getTerritory (stateCode : Option String) : String :=
  match stateCode with
  | none => "Other"
  | some st =>
      if st = "" then "Other" else (alookup st STATE_TO_TERRITORY).getD "Other"

/-- Per-rep win/loss counts inside a territory's `repBreakdown`. -/
structure RepStat where
  wins : Nat
  losses : Nat
  deriving Repr, DecidableEq

/-- `TerritoryStats` from territories.ts. -/
structure TerritoryStats where
  wins : Nat
  losses : Nat
  winRate : ℚ
  totalValue : ℚ
  repBreakdown : List (String × RepStat)
  deriving Repr, DecidableEq

/-- The territory a deal resolves to. -/
def dealTerritory (d : Deal) : String :=
  getTerritory (extractStateFromOriginCity d.origin_city)

def initRepStat : RepStat := ⟨0, 0⟩

def initTerritoryStats : TerritoryStats := ⟨0, 0, 0, 0, []⟩

/-- The rep-breakdown part of the loop body of `getTerritoryAnalytics`:
ensure the rep entry exists, then bump its wins/losses by stage. -/
def repUpdate (r : RepStat) (d : Deal) : RepStat :=
  if d.stage = "closed_won" then { r with wins := r.wins + 1 }
  else if d.stage = "closed_lost" then { r with losses := r.losses + 1 }
  else r

/-- The loop body of `getTerritoryAnalytics` acting on one territory's stats:
ensure the rep entry exists, then bump wins/losses/totalValue by stage. -/
def territoryUpdate (s : TerritoryStats) (d : Deal) : TerritoryStats :=
  let rb := upsert d.sales_rep (fun r => repUpdate r d) initRepStat s.repBreakdown
  if d.stage = "closed_won" then
    { s with wins := s.wins + 1, totalValue := s.totalValue + d.value,
             repBreakdown := rb }
  else if d.stage = "closed_lost" then
    { s with losses := s.losses + 1, repBreakdown := rb }
  else { s with repBreakdown := rb }

/-- The win-rate post-pass of `getTerritoryAnalytics`:
`winRate = total > 0 ? wins / total : 0`. -/
def territoryWinRatePass (s : TerritoryStats) : TerritoryStats :=
  let total := s.wins + s.losses
  { s with winRate := if total > 0 then (s.wins : ℚ) / (total : ℚ) else 0 }

/-- `getTerritoryAnalytics` from territories.ts. -/
def getTerritoryAnalytics (deals : List Deal) : List (String × TerritoryStats) :=
  amap territoryWinRatePass
    (keyedFold dealTerritory territoryUpdate initTerritoryStats [] deals)

/-! ### analytics.ts -/

/-- Win/loss/rate bucket of `getWinRates`. -/
structure WRStat where
  wins : Nat
  losses : Nat
  winRate : ℚ
  deriving Repr, DecidableEq

/-- Is the stage literally `closed_won` or `closed_lost` (exact comparison, no
case normalization — as in analytics.ts). -/
def isClosedStage (d : Deal) : Bool :=
  d.stage = "closed_won" || d.stage = "closed_lost"

/-- The closed-deals filter of `getWinRates`. -/
def closedDeals (deals : List Deal) : List Deal := deals.filter isClosedStage

/-- The per-deal bucket update of `getWinRates` (ensure-then-increment). -/
def wrUpdate (s : WRStat) (d : Deal) : WRStat :=
  if d.stage = "closed_won" then { s with wins := s.wins + 1 }
  else if d.stage = "closed_lost" then { s with losses := s.losses + 1 }
  else s

/-- The win-rate post-pass of `getWinRates`. -/
def wrPass (s : WRStat) : WRStat :=
  let total := s.wins + s.losses
  { s with winRate := if total > 0 then (s.wins : ℚ) / (total : ℚ) else 0 }

/-- `getWinRates` from analytics.ts: the single forEach over the closed deals
builds the two independent maps; it is embedded as two keyed folds over the
same filtered list (the two records never interact). -/
def getWinRates (deals : List Deal) :
    List (String × WRStat) × List (String × WRStat) :=
  let closed := closedDeals deals
  (amap wrPass (keyedFold (fun d => d.transportation_mode) wrUpdate ⟨0, 0, 0⟩ [] closed),
   amap wrPass (keyedFold (fun d => d.sales_rep) wrUpdate ⟨0, 0, 0⟩ [] closed))

/-- `getDealsByStage` from analytics.ts: group by the literal stage string,
pushing each deal at the end of its bucket. -/
def getDealsByStage (deals : List Deal) : List (String × List Deal) :=
  keyedFold (fun d => d.stage) (fun l d => l ++ [d]) [] [] deals

/-- JavaScript `Math.round` on an exact rational: nearest integer, ties
rounding toward positive infinity. -/
def jsRound (q : ℚ) : ℤ := ⌊q + 1/2⌋

/-- Per-stage bucket of `getStageAnalytics`. -/
structure StageStat where
  deals : List Deal
  count : Nat
  percentage : ℤ
  deriving Repr, DecidableEq

/-- `getStageAnalytics` from analytics.ts. -/
def getStageAnalytics (deals : List Deal) : Nat × List (String × StageStat) :=
  let dealsByStage := getDealsByStage deals
  let totalDeals := deals.length
  (totalDeals,
   amap (fun l =>
      ⟨l, l.length,
       if totalDeals > 0 then jsRound ((l.length : ℚ) / (totalDeals : ℚ) * 100)
       else 0⟩)
     dealsByStage)

/-! ### RevenueForecasting.tsx -/

/-- The stage-weight switch of `RevenueForecasting.tsx`: the stage string is
lowercased before matching (`deal.stage.toLowerCase()`), and every branch of
the switch assigns, with 0.5 as the default for unrecognized stages. -/
def stageWeight (stage : String) : ℚ :=
  let stageLower := stage.toLower
  if stageLower = "prospect" then 1/10
  else if stageLower = "qualified" then 3/10
  else if stageLower = "proposal" then 1/2
  else if stageLower = "negotiation" then 7/10
  else if stageLower = "closed_won" then 1
  else if stageLower = "closed_lost" then 0
  else 1/2

/-- One deal's contribution to the weighted revenue:
`deal.value * (deal.probability / 100) * stageWeight`. -/
def dealContribution (d : Deal) : ℚ :=
  d.value * (d.probability / 100) * stageWeight d.stage

/-- The positional month filter of `RevenueForecasting.tsx`: the deal at list
index `i` belongs to forward month `m` iff `i % 3 === m` (the
`months.indexOf(month)` of the source is the enclosing map index, since the
three month objects are distinct). -/
def monthDeals (deals : List Deal) (m : Nat) : List Deal :=
  (deals.enum.filter (fun p => p.1 % 3 = m)).map Prod.snd

/-- One row of the forecast table. The month label (a locale-formatted date
string) is identified by its forward-month index 0, 1, 2. -/
structure ForecastEntry where
  monthIndex : Nat
  forecast : ℚ
  dealCount : Nat
  deriving Repr, DecidableEq

/-- `forecastData` from `RevenueForecasting.tsx`: `[]` for an empty deal list,
otherwise one entry per forward month, with the weighted-revenue reduce. -/
def forecastData (deals : List Deal) : List ForecastEntry :=
  if deals = [] then []
  else
    [0, 1, 2].map (fun m =>
      let md := monthDeals deals m
      { monthIndex := m,
        forecast := md.foldl (fun sum d => sum + dealContribution d) 0,
        dealCount := md.length })

/-! ### AtRiskDeals.tsx -/

/-- The closed-deal test of `AtRiskDeals.tsx` (case-insensitive:
`deal.stage.toLowerCase() === "closed_won" || ... === "closed_lost"`). -/
def isTerminalStageLower (d : Deal) : Bool :=
  d.stage.toLower = "closed_won" || d.stage.toLower = "closed_lost"

/-- `Math.floor((now.getTime() - updatedDate.getTime()) / (1000*60*60*24))`. -/
def daysSinceUpdate (now : Int) (d : Deal) : Int :=
  Int.fdiv (now - d.updated_date) 86400000

def STALLED_DAYS_THRESHOLD : Int := 21

/-- The at-risk filter: skip closed deals, keep deals stalled for at least the
threshold. -/
def atRiskFilter (now : Int) (d : Deal) : Bool :=
  !isTerminalStageLower d && STALLED_DAYS_THRESHOLD ≤ daysSinceUpdate now d

/-- A deal annotated with its days-since-update (`{...deal, daysSinceUpdate}`). -/
structure AtRiskDeal where
  deal : Deal
  daysSinceUpdate : Int
  deriving Repr, DecidableEq

/-- `atRiskDeals` from `AtRiskDeals.tsx`: filter, annotate, then
`sort((a, b) => b.daysSinceUpdate - a.daysSinceUpdate)` — a stable sort
descending by `daysSinceUpdate`, modelled by `mergeSort` (stable). -/
def atRiskDeals (deals : List Deal) (now : Int) : List AtRiskDeal :=
  if deals = [] then []
  else
    (((deals.filter (atRiskFilter now)).map
        (fun d => ⟨d, daysSinceUpdate now d⟩)).mergeSort
      (fun a b => b.daysSinceUpdate ≤ a.daysSinceUpdate))

/-- `getRiskLevel` from `AtRiskDeals.tsx`. -/
def getRiskLevel (days : Int) : String :=
  if days ≥ 60 then "High"
  else if days ≥ 40 then "Medium"
  else "Low"

/-! ### DealVelocityMetrics.tsx -/

/-- `max(0, floor((updated_date - created_date) / 1 day))`. -/
def daysInStage (d : Deal) : Int :=
  max 0 (Int.fdiv (d.updated_date - d.created_date) 86400000)

/-- The fixed display order of stages in `DealVelocityMetrics.tsx`. -/
def stageOrder : List String :=
  ["prospect", "qualified", "proposal", "negotiation", "closed_won", "closed_lost"]

/-- One row of the velocity table. -/
structure StageVelocity where
  stage : String
  avgDays : ℚ
  dealCount : Nat
  deriving Repr, DecidableEq

/-- `stageVelocityData` from `DealVelocityMetrics.tsx`: `[]` for an empty deal
list; otherwise group by literal stage (the component inlines the same grouping
reduce as `getDealsByStage`), keep the stages of `stageOrder` that have a
bucket, and average `daysInStage` over each bucket. -/
def stageVelocityData (deals : List Deal) : List StageVelocity :=
  if deals = [] then []
  else
    let dealsByStage := getDealsByStage deals
    (stageOrder.filter (fun st => (alookup st dealsByStage).isSome)).map
      (fun st =>
        let stageDeals := (alookup st dealsByStage).getD []
        let totalDays :=
          stageDeals.foldl (fun sum d => sum + (daysInStage d : ℚ)) 0
        let avgDays :=
          if stageDeals.length > 0 then totalDays / (stageDeals.length : ℚ)
          else 0
        ⟨st, avgDays, stageDeals.length⟩)

/-- `overallAvgVelocity` from `DealVelocityMetrics.tsx`: the deal-count-weighted
mean of the per-stage averages. -/
def overallAvgVelocity (deals : List Deal) : ℚ :=
  let svd := stageVelocityData deals
  if svd = [] then 0
  else
    let totalDays := svd.foldl (fun sum s => sum + s.avgDays * (s.dealCount : ℚ)) 0
    let totalDeals := svd.foldl (fun sum s => sum + s.dealCount) (0 : Nat)
    if totalDeals > 0 then totalDays / (totalDeals : ℚ) else 0

/-! ### Concrete deal records used to exercise the definitions -/

def exDealWonCA : Deal := ⟨1, "closed_won", 100, 50, "ocean", "alice", "Los Angeles, CA", 0, 0⟩

def exDealLostTX : Deal := ⟨2, "closed_lost", 30, 50, "trucking", "bob", "Austin, TX", 0, 259200000⟩

def exDealProspect : Deal := ⟨3, "prospect", 30, 50, "ocean", "alice", "nowhere", 0, 0⟩

def exDealQualified : Deal := ⟨4, "qualified", 10, 80, "rail", "carol", "x, NY", 172800000, 777600000⟩

def exDealUpper : Deal := ⟨5, "CLOSED_WON", 10, 100, "air", "dan", "a, CA", 0, 0⟩

def cxDealA : Deal := ⟨1, "closed_won", 100, 100, "m", "r", "c", 0, 0⟩

def cxDealB : Deal := ⟨2, "closed_won", 0, 100, "m", "r", "c", 0, 0⟩

def cxDealMixed : Deal := ⟨6, "Closed_Won", 10, 100, "air", "erin", "a, CA", 0, 0⟩

/-! ### General helper lemmas -/

theorem foldl_add_map_sum {α : Type} {M : Type} [AddCommMonoid M] (f : α → M)
    (l : List α) (a : M) :
    l.foldl (fun s x => s + f x) a = a + (l.map f).sum := by
  induction l generalizing a with
  | nil => simp
  | cons x l ih => simp [ih, add_assoc]

theorem foldl_push_eq_append {α : Type} (l acc : List α) :
    l.foldl (fun acc x => acc ++ [x]) acc = acc ++ l := by
  induction l generalizing acc with
  | nil => simp
  | cons x l ih => simp [ih]

theorem length_eq_sum_map_one {α : Type} (l : List α) :
    (l.map (fun _ => (1 : ℕ))).sum = l.length := by
  induction l with
  | nil => simp
  | cons x l ih => simp [ih]; omega

theorem alookup_keyedFold_nil_eq_none {α V : Type} (κ : α → String)
    (μ : V → α → V) (init : V) (k : String) (xs : List α)
    (h : xs.filter (fun x => κ x = k) = []) :
    alookup k (keyedFold κ μ init [] xs) = none := by
  rw [alookup_keyedFold]
  simp [alookup, h]

theorem alookup_keyedFold_nil_eq_some {α V : Type} (κ : α → String)
    (μ : V → α → V) (init : V) (k : String) (xs : List α)
    (h : xs.filter (fun x => κ x = k) ≠ []) :
    alookup k (keyedFold κ μ init [] xs) =
      some ((xs.filter (fun x => κ x = k)).foldl μ init) := by
  rw [alookup_keyedFold]
  cases hf : xs.filter (fun x => κ x = k) with
  | nil => exact absurd hf h
  | cons y ys => simp [alookup]

/-! ### Fold characterizations of the per-bucket loop bodies -/

theorem wrUpdate_foldl (l : List Deal) (s : WRStat) :
    l.foldl wrUpdate s =
      ⟨s.wins + l.countP (fun d => d.stage = "closed_won"),
       s.losses + l.countP (fun d => d.stage = "closed_lost"),
       s.winRate⟩ := by
  induction l generalizing s with
  | nil => simp
  | cons d l ih =>
      by_cases hw : d.stage = "closed_won"
      · have hl : ¬d.stage = "closed_lost" := by simp [hw]
        simp only [List.foldl_cons, wrUpdate, hw, if_pos, ih, List.countP_cons,
          hl, decide_eq_true_eq]
        simp [WRStat.mk.injEq]
        omega
      · by_cases hl : d.stage = "closed_lost"
        · simp only [List.foldl_cons, wrUpdate, hw, hl, if_neg, if_pos, ih,
            List.countP_cons, decide_eq_true_eq]
          simp [WRStat.mk.injEq, hw]
          omega
        · simp only [List.foldl_cons, wrUpdate, hw, hl, if_neg, ih,
            List.countP_cons, decide_eq_true_eq]
          simp [hw, hl]

theorem repUpdate_foldl (l : List Deal) (r : RepStat) :
    l.foldl repUpdate r =
      ⟨r.wins + l.countP (fun d => d.stage = "closed_won"),
       r.losses + l.countP (fun d => d.stage = "closed_lost")⟩ := by
  induction l generalizing r with
  | nil => simp
  | cons d l ih =>
      by_cases hw : d.stage = "closed_won"
      · have hl : ¬d.stage = "closed_lost" := by simp [hw]
        simp only [List.foldl_cons, repUpdate, hw, if_pos, ih, List.countP_cons,
          hl, decide_eq_true_eq]
        simp [RepStat.mk.injEq]
        omega
      · by_cases hl : d.stage = "closed_lost"
        · simp only [List.foldl_cons, repUpdate, hw, hl, if_neg, if_pos, ih,
            List.countP_cons, decide_eq_true_eq]
          simp [RepStat.mk.injEq, hw]
          omega
        · simp only [List.foldl_cons, repUpdate, hw, hl, if_neg, ih,
            List.countP_cons, decide_eq_true_eq]
          simp [hw, hl]

theorem territoryUpdate_foldl (l : List Deal) (s : TerritoryStats) :
    l.foldl territoryUpdate s =
      ⟨s.wins + l.countP (fun d => d.stage = "closed_won"),
       s.losses + l.countP (fun d => d.stage = "closed_lost"),
       s.winRate,
       s.totalValue +
         ((l.filter (fun d => d.stage = "closed_won")).map Deal.value).sum,
       keyedFold (fun d => d.sales_rep) repUpdate initRepStat s.repBreakdown l⟩ := by
  induction l generalizing s with
  | nil => simp [keyedFold]
  | cons d l ih =>
      by_cases hw : d.stage = "closed_won"
      · have hl : ¬d.stage = "closed_lost" := by simp [hw]
        simp only [List.foldl_cons, territoryUpdate, hw, if_pos, ih,
          List.countP_cons, List.filter_cons, hl, decide_eq_true_eq, keyedFold]
        simp [TerritoryStats.mk.injEq, hw, hl, keyedFold]
        constructor
        · omega
        · ring
      · by_cases hl : d.stage = "closed_lost"
        · simp only [List.foldl_cons, territoryUpdate, hw, hl, if_neg, if_pos,
            ih, List.countP_cons, List.filter_cons, decide_eq_true_eq, keyedFold]
          simp [TerritoryStats.mk.injEq, hw, hl, keyedFold]
          omega
        · simp only [List.foldl_cons, territoryUpdate, hw, hl, if_neg, ih,
            List.countP_cons, List.filter_cons, decide_eq_true_eq, keyedFold]
          simp [hw, hl, keyedFold]

/-! ### Lookup characterizations of the aggregators -/

theorem countP_filter_eq_zero_iff {α : Type} (p : α → Bool) (l : List α) :
    l.countP p = 0 ↔ l.filter p = [] := by
  rw [List.countP_eq_length_filter, List.length_eq_zero]

theorem countP_filter_and {α : Type} (p q : α → Bool) (l : List α) :
    (l.filter p).countP q = l.countP (fun d => p d && q d) := by
  rw [List.countP_filter]
  exact List.countP_congr (fun d _ => by simp [Bool.and_comm])

theorem filter_filter_and {α : Type} (p q : α → Bool) (l : List α) :
    (l.filter p).filter q = l.filter (fun d => p d && q d) := by
  rw [List.filter_filter]
  exact List.filter_congr (fun d _ => by rw [Bool.and_comm])

/-- Counting a won (resp. lost) stage inside the closed-deals filter is
counting it in the whole list: `closed_won` implies closed. -/
theorem countP_closed_won (κ : Deal → String) (deals : List Deal) (k : String) :
    ((closedDeals deals).filter (fun d => κ d = k)).countP
        (fun d => d.stage = "closed_won")
      = deals.countP (fun d => κ d = k && d.stage = "closed_won") := by
  unfold closedDeals
  rw [countP_filter_and, countP_filter_and]
  apply List.countP_congr
  intro d _
  by_cases hw : d.stage = "closed_won" <;> simp [hw, isClosedStage]

theorem countP_closed_lost (κ : Deal → String) (deals : List Deal) (k : String) :
    ((closedDeals deals).filter (fun d => κ d = k)).countP
        (fun d => d.stage = "closed_lost")
      = deals.countP (fun d => κ d = k && d.stage = "closed_lost") := by
  unfold closedDeals
  rw [countP_filter_and, countP_filter_and]
  apply List.countP_congr
  intro d _
  by_cases hl : d.stage = "closed_lost" <;> simp [hl, isClosedStage]

/-- Generic characterization of one of the two maps built by `getWinRates`,
parameterized by the grouping key `κ`. -/
theorem wr_map_lookup (κ : Deal → String) (deals : List Deal) (k : String) :
    alookup k (amap wrPass (keyedFold κ wrUpdate ⟨0, 0, 0⟩ [] (closedDeals deals))) =
      if deals.countP (fun d => κ d = k && isClosedStage d) = 0 then none
      else
        some (wrPass ⟨deals.countP (fun d => κ d = k && d.stage = "closed_won"),
                      deals.countP (fun d => κ d = k && d.stage = "closed_lost"),
                      0⟩) := by
  rw [alookup_amap]
  have hcnt : (closedDeals deals).countP (fun d => κ d = k)
      = deals.countP (fun d => κ d = k && isClosedStage d) := by
    unfold closedDeals
    rw [countP_filter_and]
    exact List.countP_congr (fun d _ => by simp [Bool.and_comm])
  by_cases h : (closedDeals deals).filter (fun d => κ d = k) = []
  · rw [alookup_keyedFold_nil_eq_none _ _ _ _ _ h]
    rw [if_pos]
    · rfl
    · rw [← hcnt, countP_filter_eq_zero_iff]
      exact h
  · rw [alookup_keyedFold_nil_eq_some _ _ _ _ _ h]
    rw [if_neg]
    · rw [wrUpdate_foldl, countP_closed_won κ, countP_closed_lost κ,
        Nat.zero_add, Nat.zero_add]
      rfl
    · rw [← hcnt, countP_filter_eq_zero_iff]
      exact h

theorem getWinRates_fst_lookup (deals : List Deal) (k : String) :
    alookup k (getWinRates deals).1 =
      if deals.countP (fun d => d.transportation_mode = k && isClosedStage d) = 0
      then none
      else
        some (wrPass
          ⟨deals.countP (fun d => d.transportation_mode = k && d.stage = "closed_won"),
           deals.countP (fun d => d.transportation_mode = k && d.stage = "closed_lost"),
           0⟩) :=
  wr_map_lookup (fun d => d.transportation_mode) deals k

theorem getWinRates_snd_lookup (deals : List Deal) (k : String) :
    alookup k (getWinRates deals).2 =
      if deals.countP (fun d => d.sales_rep = k && isClosedStage d) = 0
      then none
      else
        some (wrPass
          ⟨deals.countP (fun d => d.sales_rep = k && d.stage = "closed_won"),
           deals.countP (fun d => d.sales_rep = k && d.stage = "closed_lost"),
           0⟩) :=
  wr_map_lookup (fun d => d.sales_rep) deals k

theorem getDealsByStage_lookup (deals : List Deal) (st : String) :
    alookup st (getDealsByStage deals) =
      if deals.filter (fun d => d.stage = st) = [] then none
      else some (deals.filter (fun d => d.stage = st)) := by
  by_cases h : deals.filter (fun d => d.stage = st) = []
  · rw [if_pos h]
    exact alookup_keyedFold_nil_eq_none _ _ _ _ _ h
  · rw [if_neg h]
    have hs := alookup_keyedFold_nil_eq_some (fun d => d.stage)
      (fun l d => l ++ [d]) [] st deals h
    rw [foldl_push_eq_append, List.nil_append] at hs
    exact hs

theorem repBreakdown_lookup (l : List Deal) (r : String) :
    alookup r (keyedFold (fun d => d.sales_rep) repUpdate initRepStat [] l) =
      if l.countP (fun d => d.sales_rep = r) = 0 then none
      else some ⟨l.countP (fun d => d.sales_rep = r && d.stage = "closed_won"),
                 l.countP (fun d => d.sales_rep = r && d.stage = "closed_lost")⟩ := by
  by_cases h : l.filter (fun d => d.sales_rep = r) = []
  · rw [if_pos ((countP_filter_eq_zero_iff _ _).mpr h)]
    exact alookup_keyedFold_nil_eq_none _ _ _ _ _ h
  · rw [if_neg (fun hc => h ((countP_filter_eq_zero_iff _ _).mp hc))]
    have hs := alookup_keyedFold_nil_eq_some (fun d => d.sales_rep)
      repUpdate initRepStat r l h
    rw [repUpdate_foldl] at hs
    simp only [show initRepStat.wins = 0 from rfl,
      show initRepStat.losses = 0 from rfl, Nat.zero_add,
      countP_filter_and] at hs
    exact hs

theorem getTerritoryAnalytics_lookup (deals : List Deal) (t : String) :
    alookup t (getTerritoryAnalytics deals) =
      if deals.countP (fun d => dealTerritory d = t) = 0 then none
      else
        some (territoryWinRatePass
          ⟨deals.countP (fun d => dealTerritory d = t && d.stage = "closed_won"),
           deals.countP (fun d => dealTerritory d = t && d.stage = "closed_lost"),
           0,
           ((deals.filter
               (fun d => dealTerritory d = t && d.stage = "closed_won")).map
             Deal.value).sum,
           keyedFold (fun d => d.sales_rep) repUpdate initRepStat []
             (deals.filter (fun d => dealTerritory d = t))⟩) := by
  unfold getTerritoryAnalytics
  rw [alookup_amap]
  by_cases h : deals.filter (fun d => dealTerritory d = t) = []
  · rw [if_pos ((countP_filter_eq_zero_iff _ _).mpr h)]
    rw [alookup_keyedFold_nil_eq_none _ _ _ _ _ h]
    rfl
  · rw [if_neg (fun hc => h ((countP_filter_eq_zero_iff _ _).mp hc))]
    have hs := alookup_keyedFold_nil_eq_some dealTerritory territoryUpdate
      initTerritoryStats t deals h
    rw [territoryUpdate_foldl] at hs
    simp only [show initTerritoryStats.wins = 0 from rfl,
      show initTerritoryStats.losses = 0 from rfl,
      show initTerritoryStats.winRate = (0 : ℚ) from rfl,
      show initTerritoryStats.totalValue = (0 : ℚ) from rfl,
      show initTerritoryStats.repBreakdown = ([] : List (String × RepStat)) from rfl,
      Nat.zero_add, zero_add, countP_filter_and, filter_filter_and] at hs
    rw [hs]
    rfl

theorem getStageAnalytics_snd_lookup (deals : List Deal) (st : String) :
    alookup st (getStageAnalytics deals).2 =
      if deals.filter (fun d => d.stage = st) = [] then none
      else
        some ⟨deals.filter (fun d => d.stage = st),
              (deals.filter (fun d => d.stage = st)).length,
              if deals.length > 0 then
                jsRound (((deals.filter (fun d => d.stage = st)).length : ℚ)
                  / (deals.length : ℚ) * 100)
              else 0⟩ := by
  unfold getStageAnalytics
  rw [alookup_amap, getDealsByStage_lookup]
  by_cases h : deals.filter (fun d => d.stage = st) = [] <;> simp [h]

/-! ### Forecast closed form -/

theorem enumFrom_filter_map_sum {M : Type} [AddCommMonoid M] (g : Deal → M)
    (m : Nat) (l : List Deal) :
    ∀ n, (((List.enumFrom n l).filter (fun p => p.1 % 3 = m)).map
        (fun p => g p.2)).sum
      = ∑ i : Fin l.length, if (n + i.val) % 3 = m then g (l.get i) else 0 := by
  induction l with
  | nil => intro n; simp
  | cons d l ih =>
      intro n
      rw [List.enumFrom_cons, List.filter_cons]
      have hsum : (∑ i : Fin (d :: l).length,
            if (n + i.val) % 3 = m then g ((d :: l).get i) else 0)
          = (if n % 3 = m then g d else 0)
            + ∑ i : Fin l.length,
                if ((n + 1) + i.val) % 3 = m then g (l.get i) else 0 := by
        show (∑ i : Fin (l.length + 1),
            if (n + i.val) % 3 = m then g ((d :: l).get i) else 0) = _
        rw [Fin.sum_univ_succ]
        congr 1
        apply Finset.sum_congr rfl
        intro i _
        have hidx : n + (i.val + 1) = (n + 1) + i.val := by omega
        simp [hidx]
      rw [hsum, ← ih (n + 1)]
      by_cases hn : n % 3 = m
      · simp [hn]
      · simp [hn]

theorem enumFrom_filter_length (m : Nat) (l : List Deal) (n : Nat) :
    ((List.enumFrom n l).filter (fun p => p.1 % 3 = m)).length
      = ∑ i : Fin l.length, if (n + i.val) % 3 = m then 1 else 0 := by
  rw [← length_eq_sum_map_one ((List.enumFrom n l).filter (fun p => p.1 % 3 = m))]
  exact enumFrom_filter_map_sum (fun _ => (1 : ℕ)) m l n

/-- Closed form of `forecastData` for a nonempty deal list: the deal at index
`i` is assigned to month `i % 3` and contributes `dealContribution`. -/
theorem forecastData_eq (deals : List Deal) (h : deals ≠ []) :
    forecastData deals =
      [0, 1, 2].map (fun m =>
        { monthIndex := m,
          forecast := ∑ i : Fin deals.length,
            if i.val % 3 = m then dealContribution (deals.get i) else 0,
          dealCount := ∑ i : Fin deals.length,
            if i.val % 3 = m then 1 else 0 }) := by
  unfold forecastData
  rw [if_neg h]
  apply List.map_congr_left
  intro m _
  have hmd : monthDeals deals m
      = ((List.enumFrom 0 deals).filter (fun p => p.1 % 3 = m)).map Prod.snd := rfl
  have hfc : (monthDeals deals m).foldl (fun sum d => sum + dealContribution d) 0
      = ∑ i : Fin deals.length,
          if i.val % 3 = m then dealContribution (deals.get i) else 0 := by
    rw [foldl_add_map_sum, zero_add, hmd, List.map_map]
    have := enumFrom_filter_map_sum dealContribution m deals 0
    simp only [Nat.zero_add] at this
    rw [← this]
    rfl
  have hdc : (monthDeals deals m).length
      = ∑ i : Fin deals.length, if i.val % 3 = m then 1 else 0 := by
    rw [hmd, List.length_map]
    have := enumFrom_filter_length m deals 0
    simp only [Nat.zero_add] at this
    exact this
  show ({ monthIndex := m,
          forecast :=
            List.foldl (fun sum d => sum + dealContribution d) 0 (monthDeals deals m),
          dealCount := (monthDeals deals m).length } : ForecastEntry) = _
  rw [hfc, hdc]

/-! ### Velocity closed forms -/

theorem sum_map_add_distrib {α M : Type} [AddCommMonoid M] (f g : α → M)
    (l : List α) :
    (l.map (fun a => f a + g a)).sum = (l.map f).sum + (l.map g).sum := by
  induction l with
  | nil => simp
  | cons x l ih =>
      simp only [List.map_cons, List.sum_cons, ih]
      abel

theorem one_hot_sum {M : Type} [AddCommMonoid M] (x : String) (a : M) :
    ∀ (sts : List String), sts.Nodup →
      (sts.map (fun st => if x = st then a else 0)).sum
        = if x ∈ sts then a else 0 := by
  intro sts
  induction sts with
  | nil => simp
  | cons st sts ih =>
      intro hnd
      rw [List.nodup_cons] at hnd
      simp only [List.map_cons, List.sum_cons, ih hnd.2]
      by_cases hx : x = st
      · subst hx
        simp [hnd.1]
      · simp [hx, List.mem_cons]

/-- Partition of a sum over deals into per-stage sums, for a duplicate-free
stage list. -/
theorem sum_over_stages {M : Type} [AddCommMonoid M] (g : Deal → M)
    (sts : List String) (hnd : sts.Nodup) (deals : List Deal) :
    (sts.map (fun st => ((deals.filter (fun d => d.stage = st)).map g).sum)).sum
      = ((deals.filter (fun d => d.stage ∈ sts)).map g).sum := by
  induction deals with
  | nil =>
      simp only [List.filter_nil, List.map_nil, List.sum_nil]
      apply List.sum_eq_zero
      intro x hx
      obtain ⟨st, _, hst⟩ := List.mem_map.mp hx
      exact hst.symm
  | cons d deals ih =>
      have hstep : (sts.map (fun st =>
            (((d :: deals).filter (fun d => d.stage = st)).map g).sum)).sum
          = (sts.map (fun st =>
              (if d.stage = st then g d else 0)
                + ((deals.filter (fun d => d.stage = st)).map g).sum)).sum := by
        congr 1
        apply List.map_congr_left
        intro st _
        rw [List.filter_cons]
        by_cases hd : d.stage = st
        · simp [hd]
        · simp [hd]
      rw [hstep, sum_map_add_distrib, one_hot_sum d.stage (g d) sts hnd, ih,
        List.filter_cons]
      by_cases hm : d.stage ∈ sts
      · simp [hm]
      · simp [hm]

theorem sum_filter_eq_sum_of_zero {α M : Type} [AddCommMonoid M] (P : α → Bool)
    (f : α → M) (l : List α) (h : ∀ a ∈ l, ¬P a → f a = 0) :
    ((l.filter P).map f).sum = (l.map f).sum := by
  induction l with
  | nil => simp
  | cons x l ih =>
      have ih2 := ih (fun a ha => h a (List.mem_cons_of_mem x ha))
      rw [List.filter_cons]
      by_cases hp : P x
      · simp [hp, ih2]
      · have hz : f x = 0 := h x (List.mem_cons_self x l) (by simp [hp])
        simp [hp, ih2, hz]

theorem stageOrder_nodup : stageOrder.Nodup := by decide

/-- Closed form of `stageVelocityData`: one row per stage of `stageOrder` that
occurs in the input, with the average of `daysInStage` over that stage's
deals. -/
theorem stageVelocityData_eq (deals : List Deal) :
    stageVelocityData deals =
      (stageOrder.filter (fun st => deals.countP (fun d => d.stage = st) ≠ 0)).map
        (fun st =>
          { stage := st,
            avgDays := ((deals.filter (fun d => d.stage = st)).map
                (fun d => (daysInStage d : ℚ))).sum
              / (deals.countP (fun d => d.stage = st) : ℚ),
            dealCount := deals.countP (fun d => d.stage = st) }) := by
  by_cases hd : deals = []
  · subst hd
    simp [stageVelocityData]
  · simp only [stageVelocityData, if_neg hd]
    have hfil : stageOrder.filter
          (fun st => (alookup st (getDealsByStage deals)).isSome)
        = stageOrder.filter
            (fun st => deals.countP (fun d => d.stage = st) ≠ 0) := by
      apply List.filter_congr
      intro st _
      rw [getDealsByStage_lookup]
      by_cases h : deals.filter (fun d => d.stage = st) = []
      · have hc : deals.countP (fun d => d.stage = st) = 0 :=
          (countP_filter_eq_zero_iff _ _).mpr h
        simp [h, hc]
      · have hc : deals.countP (fun d => d.stage = st) ≠ 0 :=
          fun hc => h ((countP_filter_eq_zero_iff _ _).mp hc)
        simp [h, hc]
    rw [hfil]
    apply List.map_congr_left
    intro st hst
    have hcnt : deals.countP (fun d => d.stage = st) ≠ 0 := by
      have := List.of_mem_filter hst
      simpa using this
    have hne : deals.filter (fun d => d.stage = st) ≠ [] :=
      fun h => hcnt ((countP_filter_eq_zero_iff _ _).mpr h)
    have hlk : (alookup st (getDealsByStage deals)).getD []
        = deals.filter (fun d => d.stage = st) := by
      rw [getDealsByStage_lookup, if_neg hne]
      rfl
    rw [hlk]
    have hlen : (deals.filter (fun d => d.stage = st)).length
        = deals.countP (fun d => d.stage = st) := by
      rw [List.countP_eq_length_filter]
    have hpos : 0 < (deals.filter (fun d => d.stage = st)).length := by
      rw [hlen]; omega
    rw [foldl_add_map_sum, zero_add, if_pos hpos, hlen]

/-- Closed form of `overallAvgVelocity`: the plain mean of `daysInStage` over
the deals whose stage belongs to `stageOrder`. -/
theorem overallAvgVelocity_eq (deals : List Deal) :
    overallAvgVelocity deals =
      if deals.countP (fun d => d.stage ∈ stageOrder) = 0 then 0
      else ((deals.filter (fun d => d.stage ∈ stageOrder)).map
              (fun d => (daysInStage d : ℚ))).sum
           / (deals.countP (fun d => d.stage ∈ stageOrder) : ℚ) := by
  simp only [overallAvgVelocity]
  rw [stageVelocityData_eq]
  have hcount : ∀ st, deals.countP (fun d => d.stage = st)
      = ((deals.filter (fun d => d.stage = st)).map (fun _ => (1 : ℕ))).sum := by
    intro st
    rw [length_eq_sum_map_one, List.countP_eq_length_filter]
  by_cases hW : deals.countP (fun d => d.stage ∈ stageOrder) = 0
  · rw [if_pos hW]
    have hsts : stageOrder.filter
        (fun st => deals.countP (fun d => d.stage = st) ≠ 0) = [] := by
      rw [List.filter_eq_nil_iff]
      intro st hst
      have hz : deals.countP (fun d => d.stage = st) = 0 := by
        rw [List.countP_eq_zero]
        intro d hd heq
        have hnp := List.countP_eq_zero.mp hW d hd
        apply hnp
        have heq' : d.stage = st := by simpa using heq
        simp [heq', hst]
      simp [hz]
    rw [hsts]
    simp
  · rw [if_neg hW]
    have hsts_ne : stageOrder.filter
        (fun st => deals.countP (fun d => d.stage = st) ≠ 0) ≠ [] := by
      intro h0
      apply hW
      rw [List.countP_eq_zero]
      intro d hd hmem
      have hmem' : d.stage ∈ stageOrder := by simpa using hmem
      have hcnt : deals.countP (fun d2 => d2.stage = d.stage) ≠ 0 := by
        have hpos : 0 < deals.countP (fun d2 => d2.stage = d.stage) :=
          List.countP_pos_iff.mpr ⟨d, hd, by simp⟩
        omega
      have hmemf : d.stage ∈ stageOrder.filter
          (fun st => deals.countP (fun d2 => d2.stage = st) ≠ 0) := by
        rw [List.mem_filter]
        exact ⟨hmem', by simpa using hcnt⟩
      rw [h0] at hmemf
      exact List.not_mem_nil _ hmemf
    rw [if_neg (by simpa using hsts_ne)]
    -- the total deal count across the emitted rows is the recognized-deal count
    have hTD : ((stageOrder.filter
          (fun st => deals.countP (fun d => d.stage = st) ≠ 0)).map
            (fun st =>
              ({ stage := st,
                 avgDays := ((deals.filter (fun d => d.stage = st)).map
                     (fun d => (daysInStage d : ℚ))).sum
                   / (deals.countP (fun d => d.stage = st) : ℚ),
                 dealCount := deals.countP (fun d => d.stage = st) }
               : StageVelocity))).foldl
          (fun sum s => sum + s.dealCount) 0
        = deals.countP (fun d => d.stage ∈ stageOrder) := by
      rw [foldl_add_map_sum, Nat.zero_add, List.map_map]
      have h1 : ((stageOrder.filter
            (fun st => deals.countP (fun d => d.stage = st) ≠ 0)).map
              (fun st => deals.countP (fun d => d.stage = st))).sum
          = (stageOrder.map (fun st => deals.countP (fun d => d.stage = st))).sum := by
        have := sum_filter_eq_sum_of_zero
          (fun st => deals.countP (fun d => d.stage = st) ≠ 0)
          (fun st => deals.countP (fun d => d.stage = st)) stageOrder
          (fun st _ hnp => by simpa using hnp)
        exact this
      have h2 : (stageOrder.map
            (fun st => deals.countP (fun d => d.stage = st))).sum
          = deals.countP (fun d => d.stage ∈ stageOrder) := by
        have hp := sum_over_stages (fun _ => (1 : ℕ)) stageOrder
          stageOrder_nodup deals
        calc (stageOrder.map (fun st => deals.countP (fun d => d.stage = st))).sum
            = (stageOrder.map (fun st => ((deals.filter
                (fun d => d.stage = st)).map (fun _ => (1 : ℕ))).sum)).sum := by
              congr 1
              exact List.map_congr_left (fun st _ => hcount st)
          _ = ((deals.filter (fun d => d.stage ∈ stageOrder)).map
                (fun _ => (1 : ℕ))).sum := hp
          _ = deals.countP (fun d => d.stage ∈ stageOrder) := by
              rw [length_eq_sum_map_one, List.countP_eq_length_filter]
      exact h1.trans h2
    have hDays : ((stageOrder.filter
          (fun st => deals.countP (fun d => d.stage = st) ≠ 0)).map
            (fun st =>
              ({ stage := st,
                 avgDays := ((deals.filter (fun d => d.stage = st)).map
                     (fun d => (daysInStage d : ℚ))).sum
                   / (deals.countP (fun d => d.stage = st) : ℚ),
                 dealCount := deals.countP (fun d => d.stage = st) }
               : StageVelocity))).foldl
          (fun sum s => sum + s.avgDays * (s.dealCount : ℚ)) 0
        = ((deals.filter (fun d => d.stage ∈ stageOrder)).map
            (fun d => (daysInStage d : ℚ))).sum := by
      rw [foldl_add_map_sum, zero_add, List.map_map]
      have h1 : ((stageOrder.filter
            (fun st => deals.countP (fun d => d.stage = st) ≠ 0)).map
              (fun st =>
                (((deals.filter (fun d => d.stage = st)).map
                    (fun d => (daysInStage d : ℚ))).sum
                  / (deals.countP (fun d => d.stage = st) : ℚ))
                  * (deals.countP (fun d => d.stage = st) : ℚ))).sum
          = ((stageOrder.filter
              (fun st => deals.countP (fun d => d.stage = st) ≠ 0)).map
                (fun st => ((deals.filter (fun d => d.stage = st)).map
                    (fun d => (daysInStage d : ℚ))).sum)).sum := by
        congr 1
        apply List.map_congr_left
        intro st hst
        have hc : deals.countP (fun d => d.stage = st) ≠ 0 := by
          have := List.of_mem_filter hst
          simpa using this
        have hcq : (deals.countP (fun d => d.stage = st) : ℚ) ≠ 0 := by
          exact_mod_cast hc
        exact div_mul_cancel₀ _ hcq
      have h2 : ((stageOrder.filter
            (fun st => deals.countP (fun d => d.stage = st) ≠ 0)).map
              (fun st => ((deals.filter (fun d => d.stage = st)).map
                  (fun d => (daysInStage d : ℚ))).sum)).sum
          = (stageOrder.map
              (fun st => ((deals.filter (fun d => d.stage = st)).map
                  (fun d => (daysInStage d : ℚ))).sum)).sum := by
        apply sum_filter_eq_sum_of_zero
        intro st _ hnp
        have hz : deals.countP (fun d => d.stage = st) = 0 := by
          simpa using hnp
        rw [(countP_filter_eq_zero_iff _ _).mp hz]
        simp
      have h3 := sum_over_stages (fun d => (daysInStage d : ℚ)) stageOrder
        stageOrder_nodup deals
      calc _ = _ := h1
        _ = _ := h2
        _ = _ := h3
    rw [hTD, hDays, if_pos (by omega)]

/-! ### At-risk lemmas -/

theorem atRiskDeals_perm_filter (deals : List Deal) (now : Int) :
    (atRiskDeals deals now).Perm
      ((deals.filter (atRiskFilter now)).map
        (fun d => ⟨d, daysSinceUpdate now d⟩)) := by
  unfold atRiskDeals
  by_cases h : deals = []
  · subst h; simp
  · rw [if_neg h]
    exact List.mergeSort_perm _ _

theorem atRiskDeals_sorted (deals : List Deal) (now : Int) :
    (atRiskDeals deals now).Pairwise
      (fun a b => b.daysSinceUpdate ≤ a.daysSinceUpdate) := by
  unfold atRiskDeals
  by_cases h : deals = []
  · subst h; simp
  · rw [if_neg h]
    refine List.Pairwise.imp ?_ (List.sorted_mergeSort ?_ ?_ _)
    · intro a b hb
      simpa using hb
    · intro a b c hab hbc
      simp only [decide_eq_true_eq] at *
      omega
    · intro a b
      simp only [Bool.or_eq_true, decide_eq_true_eq]
      omega

/-! ### extractState decomposition -/

theorem jsSpace_dropWhile_append (rest : List Char) (w : List Char)
    (hw : ∀ c ∈ w, jsSpace c) :
    List.dropWhile jsSpace (w ++ rest) = List.dropWhile jsSpace rest := by
  induction w with
  | nil => simp
  | cons c w ih =>
      have hc : jsSpace c := hw c (List.mem_cons_self c w)
      rw [List.cons_append, List.dropWhile_cons_of_pos hc]
      exact ih (fun c hc2 => hw c (List.mem_cons_of_mem _ hc2))

theorem extractState_of_decomp (p w : List Char) (c2 c1 : Char)
    (hw : ∀ c ∈ w, jsSpace c) (h2 : asciiUpper c2 = true)
    (h1 : asciiUpper c1 = true) :
    extractStateFromOriginCity ⟨p ++ ',' :: (w ++ [c2, c1])⟩
      = some ⟨[c2, c1]⟩ := by
  unfold extractStateFromOriginCity
  have hne : (⟨p ++ ',' :: (w ++ [c2, c1])⟩ : String) ≠ "" := by
    intro hcon
    have : p ++ ',' :: (w ++ [c2, c1]) = [] := congrArg String.data hcon
    simp at this
  rw [if_neg hne]
  have hrev : (String.mk (p ++ ',' :: (w ++ [c2, c1]))).data.reverse
      = c1 :: c2 :: (w.reverse ++ ',' :: p.reverse) := by
    show (p ++ ',' :: (w ++ [c2, c1])).reverse = _
    simp
  rw [hrev]
  have hw' : ∀ c ∈ w.reverse, jsSpace c := by
    intro c hc
    exact hw c (List.mem_reverse.mp hc)
  show (if (asciiUpper c1 && asciiUpper c2) = true then
      match List.dropWhile jsSpace (w.reverse ++ ',' :: p.reverse) with
      | c :: _ => if c = ',' then some (String.mk [c2, c1]) else none
      | [] => none
    else none) = some ⟨[c2, c1]⟩
  rw [h1, h2]
  simp only [Bool.and_self, if_pos]
  rw [jsSpace_dropWhile_append (',' :: p.reverse) w.reverse hw']
  rw [List.dropWhile_cons_of_neg (by decide : ¬jsSpace ',' = true)]
  rfl

theorem extractState_some_decomp (s : String) (t : String)
    (h : extractStateFromOriginCity s = some t) :
    ∃ p w c2 c1, s.data = p ++ ',' :: (w ++ [c2, c1])
      ∧ (∀ c ∈ w, jsSpace c) ∧ asciiUpper c2 = true ∧ asciiUpper c1 = true
      ∧ t = ⟨[c2, c1]⟩ := by
  unfold extractStateFromOriginCity at h
  by_cases hs : s = ""
  · rw [if_pos hs] at h
    exact absurd h (by simp)
  · rw [if_neg hs] at h
    cases hrev : s.data.reverse with
    | nil => rw [hrev] at h; exact absurd h (by simp)
    | cons c1 rest1 =>
        cases rest1 with
        | nil => rw [hrev] at h; exact absurd h (by simp)
        | cons c2 rest =>
            rw [hrev] at h
            replace h : (if (asciiUpper c1 && asciiUpper c2) = true then
                match List.dropWhile jsSpace rest with
                | c :: _ => if c = ',' then some (String.mk [c2, c1]) else none
                | [] => none
              else none) = some t := h
            by_cases hu : asciiUpper c1 && asciiUpper c2
            · rw [if_pos hu] at h
              cases hdw : rest.dropWhile jsSpace with
              | nil => rw [hdw] at h; exact absurd h (by simp)
              | cons c0 rest2 =>
                  rw [hdw] at h
                  replace h : (if c0 = ',' then some (String.mk [c2, c1])
                      else none) = some t := h
                  by_cases hc : c0 = ','
                  · subst hc
                    rw [if_pos rfl] at h
                    have ht : t = ⟨[c2, c1]⟩ := (Option.some_inj.mp h).symm
                    refine ⟨rest2.reverse, (rest.takeWhile jsSpace).reverse,
                      c2, c1, ?_, ?_, ?_, ?_, ht⟩
                    · have hdata : s.data = rest.reverse ++ [c2, c1] := by
                        have hc2 := congrArg List.reverse hrev
                        rw [List.reverse_reverse] at hc2
                        rw [hc2]
                        simp
                      have hrest : rest = rest.takeWhile jsSpace ++ ',' :: rest2 := by
                        rw [← hdw]
                        exact (List.takeWhile_append_dropWhile jsSpace rest).symm
                      have hsplit : rest.reverse
                          = rest2.reverse ++ ',' :: (rest.takeWhile jsSpace).reverse := by
                        conv_lhs => rw [hrest]
                        simp
                      rw [hdata, hsplit]
                      simp
                    · intro c hcm
                      exact List.mem_takeWhile_imp (List.mem_reverse.mp hcm)
                    · exact (Bool.and_eq_true_iff.mp hu).2
                    · exact (Bool.and_eq_true_iff.mp hu).1
                  · rw [if_neg hc] at h
                    exact absurd h (by simp)
            · rw [if_neg hu] at h
              exact absurd h (by simp)

/-! ### Win-rate bucket properties -/

theorem countP_or_disjoint {α : Type} (p q : α → Bool) (l : List α)
    (hdisj : ∀ a, ¬(p a = true ∧ q a = true)) :
    l.countP (fun a => p a || q a) = l.countP p + l.countP q := by
  induction l with
  | nil => simp
  | cons x l ih =>
      simp only [List.countP_cons, ih]
      by_cases hp : p x = true
      · have hq : ¬q x = true := fun hq => hdisj x ⟨hp, hq⟩
        simp [hp, hq]
        omega
      · by_cases hq : q x = true
        · simp [hp, hq]
          omega
        · simp [hp, hq]

theorem countP_closed_split (κ : Deal → String) (deals : List Deal) (k : String) :
    deals.countP (fun d => κ d = k && isClosedStage d)
      = deals.countP (fun d => κ d = k && d.stage = "closed_won")
        + deals.countP (fun d => κ d = k && d.stage = "closed_lost") := by
  have h1 : deals.countP (fun d => κ d = k && isClosedStage d)
      = deals.countP (fun d =>
          (κ d = k && d.stage = "closed_won")
            || (κ d = k && d.stage = "closed_lost")) := by
    apply List.countP_congr
    intro d _
    simp only [isClosedStage, Bool.and_eq_true, Bool.or_eq_true,
      decide_eq_true_eq]
    tauto
  rw [h1]
  exact countP_or_disjoint
    (fun d => κ d = k && d.stage = "closed_won")
    (fun d => κ d = k && d.stage = "closed_lost") deals
    (fun d hc => by
      have hw := (Bool.and_eq_true_iff.mp hc.1).2
      have hl := (Bool.and_eq_true_iff.mp hc.2).2
      simp only [decide_eq_true_eq] at hw hl
      rw [hw] at hl
      exact absurd hl (by decide))

/-- All the per-bucket facts of the win-rate maps, generic in the key. -/
theorem wr_bucket_props (κ : Deal → String) (deals : List Deal) (k : String)
    (s : WRStat)
    (hs : alookup k (amap wrPass
        (keyedFold κ wrUpdate ⟨0, 0, 0⟩ [] (closedDeals deals))) = some s) :
    deals.countP (fun d => κ d = k && isClosedStage d) ≠ 0
    ∧ s.wins = deals.countP (fun d => κ d = k && d.stage = "closed_won")
    ∧ s.losses = deals.countP (fun d => κ d = k && d.stage = "closed_lost")
    ∧ s.wins + s.losses = deals.countP (fun d => κ d = k && isClosedStage d)
    ∧ s.winRate = (s.wins : ℚ) / ((s.wins : ℚ) + (s.losses : ℚ))
    ∧ 0 ≤ s.winRate ∧ s.winRate ≤ 1
    ∧ (s.wins + s.losses = 0 → s.winRate = 0) := by
  rw [wr_map_lookup] at hs
  by_cases h0 : deals.countP (fun d => κ d = k && isClosedStage d) = 0
  · rw [if_pos h0] at hs
    exact absurd hs (by simp)
  · rw [if_neg h0] at hs
    have hsv := (Option.some_inj.mp hs).symm
    have hw : s.wins
        = deals.countP (fun d => κ d = k && d.stage = "closed_won") := by
      rw [hsv]
      rfl
    have hl : s.losses
        = deals.countP (fun d => κ d = k && d.stage = "closed_lost") := by
      rw [hsv]
      rfl
    have hr : s.winRate =
        if 0 < deals.countP (fun d => κ d = k && d.stage = "closed_won")
            + deals.countP (fun d => κ d = k && d.stage = "closed_lost")
        then (deals.countP (fun d => κ d = k && d.stage = "closed_won") : ℚ)
          / ((deals.countP (fun d => κ d = k && d.stage = "closed_won")
              + deals.countP (fun d => κ d = k && d.stage = "closed_lost") : ℕ) : ℚ)
        else 0 := by
      rw [hsv]
      rfl
    refine ⟨h0, hw, hl, ?_, ?_, ?_, ?_, ?_⟩
    · rw [hw, hl]
      exact (countP_closed_split κ deals k).symm
    · rw [hr, hw, hl]
      by_cases hz : 0 < deals.countP (fun d => κ d = k && d.stage = "closed_won")
          + deals.countP (fun d => κ d = k && d.stage = "closed_lost")
      · rw [if_pos hz]
        push_cast
        rfl
      · rw [if_neg hz]
        have hw0 : deals.countP
            (fun d => κ d = k && d.stage = "closed_won") = 0 := by omega
        rw [hw0]
        simp
    · rw [hr]
      by_cases hz : 0 < deals.countP (fun d => κ d = k && d.stage = "closed_won")
          + deals.countP (fun d => κ d = k && d.stage = "closed_lost")
      · rw [if_pos hz]
        positivity
      · rw [if_neg hz]
    · rw [hr]
      by_cases hz : 0 < deals.countP (fun d => κ d = k && d.stage = "closed_won")
          + deals.countP (fun d => κ d = k && d.stage = "closed_lost")
      · rw [if_pos hz]
        rw [div_le_one (by exact_mod_cast hz)]
        exact_mod_cast Nat.le_add_right _ _
      · rw [if_neg hz]
        exact zero_le_one
    · intro htot
      rw [hw, hl] at htot
      rw [hr, if_neg (by omega)]

/-- C1: for every deal list and every bucket key of either win-rate map,
`wins` counts the closed-won deals with that exact key, `losses` the
closed-lost ones, `wins + losses` the closed deals with that key,
`winRate = wins / (wins + losses)` lies in `[0, 1]`, and `winRate = 0`
whenever `wins + losses = 0`. -/
theorem C1_winRate_buckets (deals : List Deal) (k : String) :
    (∀ s, alookup k (getWinRates deals).1 = some s →
      s.wins + s.losses
          = deals.countP (fun d => d.transportation_mode = k && isClosedStage d)
        ∧ s.wins = deals.countP
            (fun d => d.transportation_mode = k && d.stage = "closed_won")
        ∧ s.losses = deals.countP
            (fun d => d.transportation_mode = k && d.stage = "closed_lost")
        ∧ s.winRate = (s.wins : ℚ) / ((s.wins : ℚ) + (s.losses : ℚ))
        ∧ 0 ≤ s.winRate ∧ s.winRate ≤ 1
        ∧ (s.wins + s.losses = 0 → s.winRate = 0))
    ∧ (∀ s, alookup k (getWinRates deals).2 = some s →
      s.wins + s.losses
          = deals.countP (fun d => d.sales_rep = k && isClosedStage d)
        ∧ s.wins = deals.countP
            (fun d => d.sales_rep = k && d.stage = "closed_won")
        ∧ s.losses = deals.countP
            (fun d => d.sales_rep = k && d.stage = "closed_lost")
        ∧ s.winRate = (s.wins : ℚ) / ((s.wins : ℚ) + (s.losses : ℚ))
        ∧ 0 ≤ s.winRate ∧ s.winRate ≤ 1
        ∧ (s.wins + s.losses = 0 → s.winRate = 0)) := by
  constructor
  · intro s hs
    obtain ⟨_, h1, h2, h3, h4, h5, h6, h7⟩ :=
      wr_bucket_props (fun d => d.transportation_mode) deals k s hs
    exact ⟨h3, h1, h2, h4, h5, h6, h7⟩
  · intro s hs
    obtain ⟨_, h1, h2, h3, h4, h5, h6, h7⟩ :=
      wr_bucket_props (fun d => d.sales_rep) deals k s hs
    exact ⟨h3, h1, h2, h4, h5, h6, h7⟩

theorem C1_witness :
    alookup "ocean" (getWinRates [exDealWonCA, exDealLostTX, exDealProspect]).1
        = some ⟨1, 0, 1⟩
    ∧ (⟨1, 0, 1⟩ : WRStat).wins + (⟨1, 0, 1⟩ : WRStat).losses
        = [exDealWonCA, exDealLostTX, exDealProspect].countP
            (fun d => d.transportation_mode = "ocean" && isClosedStage d) :=
  ⟨by with_unfolding_all decide,
   ((C1_winRate_buckets [exDealWonCA, exDealLostTX, exDealProspect] "ocean").1
     ⟨1, 0, 1⟩ (by with_unfolding_all decide)).1⟩

/-- C9: every bucket that the win-rate maps materialize holds at least one
counted win or loss, so the `wins / (wins + losses)` division never divides by
zero and the zero-total guard is a defensive no-op. -/
theorem C9_no_div_by_zero (deals : List Deal) (k : String) :
    (∀ s, alookup k (getWinRates deals).1 = some s → 1 ≤ s.wins + s.losses)
    ∧ (∀ s, alookup k (getWinRates deals).2 = some s → 1 ≤ s.wins + s.losses) := by
  constructor
  · intro s hs
    obtain ⟨h0, _, _, h4, _⟩ :=
      wr_bucket_props (fun d => d.transportation_mode) deals k s hs
    omega
  · intro s hs
    obtain ⟨h0, _, _, h4, _⟩ :=
      wr_bucket_props (fun d => d.sales_rep) deals k s hs
    omega

theorem C9_witness :
    alookup "trucking" (getWinRates [exDealWonCA, exDealLostTX]).1
        = some ⟨0, 1, 0⟩
    ∧ 1 ≤ (⟨0, 1, 0⟩ : WRStat).wins + (⟨0, 1, 0⟩ : WRStat).losses :=
  ⟨by with_unfolding_all decide,
   (C9_no_div_by_zero [exDealWonCA, exDealLostTX] "trucking").1
     ⟨0, 1, 0⟩ (by with_unfolding_all decide)⟩

/-- C8: on the empty deal list every aggregator returns its fully-defined
zero/empty structure: two empty maps for the win-rate aggregator, zero total
and empty map for the stage aggregator, an empty territory map, and empty
outputs for the forecast, velocity and risk metrics. -/
theorem C8_empty_inputs :
    getWinRates [] = ([], [])
    ∧ getStageAnalytics [] = (0, [])
    ∧ getTerritoryAnalytics [] = []
    ∧ forecastData [] = []
    ∧ stageVelocityData [] = []
    ∧ overallAvgVelocity [] = 0
    ∧ ∀ now : Int, atRiskDeals [] now = [] := by
  refine ⟨rfl, rfl, rfl, rfl, rfl, rfl, fun now => ?_⟩
  unfold atRiskDeals
  simp

/-! ### Territory claim -/

/-- Field-level consequences of a territory bucket existing, with the rep
breakdown characterized by deal-level counts. -/
theorem getTerritoryAnalytics_some (deals : List Deal) (t : String)
    (s : TerritoryStats)
    (hs : alookup t (getTerritoryAnalytics deals) = some s) :
    deals.countP (fun d => dealTerritory d = t) ≠ 0
    ∧ s.wins = deals.countP (fun d => dealTerritory d = t && d.stage = "closed_won")
    ∧ s.losses = deals.countP (fun d => dealTerritory d = t && d.stage = "closed_lost")
    ∧ s.winRate = (if 0 < s.wins + s.losses
        then (s.wins : ℚ) / ((s.wins + s.losses : ℕ) : ℚ) else 0)
    ∧ s.totalValue = ((deals.filter
        (fun d => dealTerritory d = t && d.stage = "closed_won")).map Deal.value).sum
    ∧ (∀ r, alookup r s.repBreakdown =
        if deals.countP (fun d => dealTerritory d = t && d.sales_rep = r) = 0
        then none
        else some ⟨deals.countP (fun d => dealTerritory d = t
                     && (d.sales_rep = r && d.stage = "closed_won")),
                   deals.countP (fun d => dealTerritory d = t
                     && (d.sales_rep = r && d.stage = "closed_lost"))⟩) := by
  rw [getTerritoryAnalytics_lookup] at hs
  by_cases h0 : deals.countP (fun d => dealTerritory d = t) = 0
  · rw [if_pos h0] at hs
    exact absurd hs (by simp)
  · rw [if_neg h0] at hs
    have hsv := (Option.some_inj.mp hs).symm
    have hw : s.wins = deals.countP
        (fun d => dealTerritory d = t && d.stage = "closed_won") := by
      rw [hsv]
      rfl
    have hl : s.losses = deals.countP
        (fun d => dealTerritory d = t && d.stage = "closed_lost") := by
      rw [hsv]
      rfl
    have hrate : s.winRate = (if 0 < s.wins + s.losses
        then (s.wins : ℚ) / ((s.wins + s.losses : ℕ) : ℚ) else 0) := by
      rw [hsv]
      rfl
    have hval : s.totalValue = ((deals.filter
        (fun d => dealTerritory d = t && d.stage = "closed_won")).map
          Deal.value).sum := by
      rw [hsv]
      rfl
    have hrb : s.repBreakdown
        = keyedFold (fun d => d.sales_rep) repUpdate initRepStat []
            (deals.filter (fun d => dealTerritory d = t)) := by
      rw [hsv]
      rfl
    refine ⟨h0, hw, hl, hrate, hval, ?_⟩
    intro r
    rw [hrb, repBreakdown_lookup,
      countP_filter_and (fun d => dealTerritory d = t) (fun d => d.sales_rep = r),
      countP_filter_and (fun d => dealTerritory d = t)
        (fun d => d.sales_rep = r && d.stage = "closed_won"),
      countP_filter_and (fun d => dealTerritory d = t)
        (fun d => d.sales_rep = r && d.stage = "closed_lost")]

/-- C4: for every territory bucket, `totalValue` is the sum of `value` over the
closed-won deals resolving to that territory; every rep of any deal (at any
stage) resolving there appears as a key of `repBreakdown`, and with zero wins
and losses when none of that rep's deals there are closed. -/
theorem C4_territory_totals (deals : List Deal) (t : String) :
    ∀ s, alookup t (getTerritoryAnalytics deals) = some s →
      s.totalValue = ((deals.filter (fun d => dealTerritory d = t
          && d.stage = "closed_won")).map Deal.value).sum
      ∧ (∀ d ∈ deals, dealTerritory d = t →
          (alookup d.sales_rep s.repBreakdown).isSome = true)
      ∧ (∀ d ∈ deals, dealTerritory d = t →
          deals.countP (fun d2 => dealTerritory d2 = t
            && (d2.sales_rep = d.sales_rep && isClosedStage d2)) = 0 →
          alookup d.sales_rep s.repBreakdown = some ⟨0, 0⟩) := by
  intro s hs
  obtain ⟨h0, hw, hl, hrate, hval, hrep⟩ :=
    getTerritoryAnalytics_some deals t s hs
  refine ⟨hval, ?_, ?_⟩
  · intro d hd ht
    rw [hrep d.sales_rep]
    have hc : deals.countP (fun d2 => dealTerritory d2 = t
        && d2.sales_rep = d.sales_rep) ≠ 0 := by
      have hpos : 0 < deals.countP (fun d2 => dealTerritory d2 = t
          && d2.sales_rep = d.sales_rep) :=
        List.countP_pos_iff.mpr ⟨d, hd, by simp [ht]⟩
      omega
    rw [if_neg hc]
    rfl
  · intro d hd ht hz
    rw [hrep d.sales_rep]
    have hc : deals.countP (fun d2 => dealTerritory d2 = t
        && d2.sales_rep = d.sales_rep) ≠ 0 := by
      have hpos : 0 < deals.countP (fun d2 => dealTerritory d2 = t
          && d2.sales_rep = d.sales_rep) :=
        List.countP_pos_iff.mpr ⟨d, hd, by simp [ht]⟩
      omega
    rw [if_neg hc]
    have hzero := List.countP_eq_zero.mp hz
    have hzw : deals.countP (fun d2 => dealTerritory d2 = t
        && (d2.sales_rep = d.sales_rep && d2.stage = "closed_won")) = 0 := by
      rw [List.countP_eq_zero]
      intro d2 hd2 hp
      apply hzero d2 hd2
      simp only [Bool.and_eq_true, decide_eq_true_eq] at hp ⊢
      exact ⟨hp.1, hp.2.1, by simp [isClosedStage, hp.2.2]⟩
    have hzl : deals.countP (fun d2 => dealTerritory d2 = t
        && (d2.sales_rep = d.sales_rep && d2.stage = "closed_lost")) = 0 := by
      rw [List.countP_eq_zero]
      intro d2 hd2 hp
      apply hzero d2 hd2
      simp only [Bool.and_eq_true, decide_eq_true_eq] at hp ⊢
      exact ⟨hp.1, hp.2.1, by simp [isClosedStage, hp.2.2]⟩
    rw [hzw, hzl]

theorem C4_witness :
    alookup "Pacific" (getTerritoryAnalytics [exDealWonCA, exDealProspect])
        = some ⟨1, 0, 1, 100, [("alice", ⟨1, 0⟩)]⟩
    ∧ (⟨1, 0, 1, 100, [("alice", ⟨1, 0⟩)]⟩ : TerritoryStats).totalValue
        = (([exDealWonCA, exDealProspect].filter
            (fun d => dealTerritory d = "Pacific"
              && d.stage = "closed_won")).map Deal.value).sum :=
  ⟨by with_unfolding_all decide,
   (C4_territory_totals [exDealWonCA, exDealProspect] "Pacific"
     ⟨1, 0, 1, 100, [("alice", ⟨1, 0⟩)]⟩ (by with_unfolding_all decide)).1⟩

/-- C5: `extractStateFromOriginCity` succeeds exactly on strings ending in a
two-uppercase-letter token preceded by a comma and optional whitespace,
returning that token, and returns `none` for the empty string or when no such
suffix exists; `getTerritory` is total, mapping through the fixed
state-to-territory table with `"Other"` for `none` or any unmapped state.
Includes the spec's concrete examples. -/
theorem C5_extract_resolve :
    (∀ (p w : List Char) (c2 c1 : Char), (∀ c ∈ w, jsSpace c) →
        asciiUpper c2 = true → asciiUpper c1 = true →
        extractStateFromOriginCity ⟨p ++ ',' :: (w ++ [c2, c1])⟩
          = some ⟨[c2, c1]⟩)
    ∧ (∀ s t, extractStateFromOriginCity s = some t →
        ∃ p w c2 c1, s.data = p ++ ',' :: (w ++ [c2, c1])
          ∧ (∀ c ∈ w, jsSpace c) ∧ asciiUpper c2 = true ∧ asciiUpper c1 = true
          ∧ t = ⟨[c2, c1]⟩)
    ∧ extractStateFromOriginCity "" = none
    ∧ extractStateFromOriginCity "Los Angeles" = none
    ∧ extractStateFromOriginCity "Los Angeles, CA" = some "CA"
    ∧ getTerritory (some "CA") = "Pacific"
    ∧ getTerritory (some "HI") = "Other"
    ∧ getTerritory none = "Other"
    ∧ (∀ st, alookup st STATE_TO_TERRITORY = none →
        getTerritory (some st) = "Other")
    ∧ (∀ st v, alookup st STATE_TO_TERRITORY = some v →
        getTerritory (some st) = v) := by
  refine ⟨extractState_of_decomp, extractState_some_decomp,
    by decide, by decide, by decide, by decide, by decide, rfl, ?_, ?_⟩
  · intro st h
    show (if st = "" then "Other"
      else (alookup st STATE_TO_TERRITORY).getD "Other") = "Other"
    by_cases hst : st = ""
    · rw [if_pos hst]
    · rw [if_neg hst, h]
      rfl
  · intro st v h
    show (if st = "" then "Other"
      else (alookup st STATE_TO_TERRITORY).getD "Other") = v
    by_cases hst : st = ""
    · subst hst
      rw [show alookup "" STATE_TO_TERRITORY = (none : Option String)
        from by decide] at h
      exact Option.noConfusion h
    · rw [if_neg hst, h]
      rfl

theorem C5_witness :
    (∀ c ∈ [' '], jsSpace c)
    ∧ extractStateFromOriginCity ⟨"Boston".data ++ ',' :: ([' '] ++ ['M', 'A'])⟩
        = some ⟨['M', 'A']⟩ :=
  ⟨by decide,
   C5_extract_resolve.1 "Boston".data [' '] 'M' 'A'
     (by decide) (by decide) (by decide)⟩

/-- C10: the Forecast Estimator's stage-weight lookup is case-insensitive — a
stage equal to a recognized name up to letter case receives that stage's fixed
weight rather than the 0.5 default — while the Win-Rate and Territory
aggregators compare stage strings exactly, so a deal with stage "CLOSED_WON" is
excluded from the win-rate maps and counted with zero wins in its territory. -/
theorem C10_stage_weight_case (s : String) :
    (s.toLower = "prospect" → stageWeight s = 1/10)
    ∧ (s.toLower = "qualified" → stageWeight s = 3/10)
    ∧ (s.toLower = "proposal" → stageWeight s = 1/2)
    ∧ (s.toLower = "negotiation" → stageWeight s = 7/10)
    ∧ (s.toLower = "closed_won" → stageWeight s = 1)
    ∧ (s.toLower = "closed_lost" → stageWeight s = 0)
    ∧ stageWeight "CLOSED_LOST" = 0
    ∧ stageWeight "Prospect" = 1/10
    ∧ getWinRates [exDealUpper] = ([], [])
    ∧ getTerritoryAnalytics [exDealUpper]
        = [("Pacific", ⟨0, 0, 0, 0, [("dan", ⟨0, 0⟩)]⟩)] := by
  refine ⟨?_, ?_, ?_, ?_, ?_, ?_, by with_unfolding_all decide,
    by with_unfolding_all decide, by with_unfolding_all decide,
    by with_unfolding_all decide⟩ <;>
  · intro h
    simp [stageWeight, h]

theorem C10_witness :
    ("CLOSED_LOST".toLower = "closed_lost") ∧ stageWeight "CLOSED_LOST" = 0 :=
  ⟨by with_unfolding_all decide,
   (C10_stage_weight_case "CLOSED_LOST").2.2.2.2.2.1
     (by with_unfolding_all decide)⟩

unseal List.merge List.mergeSort in
/-- C6 as stated is false on the code: the claim includes every stale deal
whose stage is literally neither `closed_won` nor `closed_lost`, but
`AtRiskDeals.tsx` lowercases the stage before the terminal test. A deal with
stage `"Closed_Won"`, 30 days stale, satisfies the claim's plain test yet the
code excludes it. -/
theorem C6_counterexample :
    cxDealMixed.stage ≠ "closed_won"
    ∧ cxDealMixed.stage ≠ "closed_lost"
    ∧ 21 ≤ daysSinceUpdate (30 * 86400000) cxDealMixed
    ∧ atRiskDeals [cxDealMixed] (30 * 86400000) = [] := by
  refine ⟨by decide, by decide, by with_unfolding_all decide, ?_⟩
  with_unfolding_all decide

/-- C6 (amended): the at-risk output contains exactly the deals whose
*lowercased* stage is neither `closed_won` nor `closed_lost` (the component's
case-insensitive terminal test) and whose floored days since update is at
least 21, each annotated with that value, sorted descending by
`daysSinceUpdate`; the severity tier is High at 60+ days, Medium at 40–59,
else Low; a deal terminal under that test is excluded regardless of
staleness. -/
theorem C6_at_risk (deals : List Deal) (now : Int) :
    (atRiskDeals deals now).Perm
      ((deals.filter (fun d => !isTerminalStageLower d
          && 21 ≤ daysSinceUpdate now d)).map
        (fun d => ⟨d, daysSinceUpdate now d⟩))
    ∧ (atRiskDeals deals now).Pairwise
        (fun a b => b.daysSinceUpdate ≤ a.daysSinceUpdate)
    ∧ (∀ a ∈ atRiskDeals deals now,
        isTerminalStageLower a.deal = false
        ∧ 21 ≤ a.daysSinceUpdate
        ∧ a.daysSinceUpdate = daysSinceUpdate now a.deal)
    ∧ (∀ days : Int, (60 ≤ days → getRiskLevel days = "High")
        ∧ (40 ≤ days → days < 60 → getRiskLevel days = "Medium")
        ∧ (days < 40 → getRiskLevel days = "Low")) := by
  have hperm := atRiskDeals_perm_filter deals now
  refine ⟨hperm, atRiskDeals_sorted deals now, ?_, ?_⟩
  · intro a ha
    have hmem := hperm.mem_iff.mp ha
    obtain ⟨d, hd, rfl⟩ := List.mem_map.mp hmem
    have hf := List.of_mem_filter hd
    simp only [atRiskFilter, STALLED_DAYS_THRESHOLD, Bool.and_eq_true,
      Bool.not_eq_true', decide_eq_true_eq] at hf
    exact ⟨hf.1, hf.2, rfl⟩
  · intro days
    refine ⟨?_, ?_, ?_⟩
    · intro h
      unfold getRiskLevel
      rw [if_pos h]
    · intro h1 h2
      unfold getRiskLevel
      rw [if_neg (by omega), if_pos h1]
    · intro h
      unfold getRiskLevel
      rw [if_neg (by omega), if_neg (by omega)]

unseal List.merge List.mergeSort in
theorem C6_witness :
    ((⟨exDealProspect, 65⟩ : AtRiskDeal)
        ∈ atRiskDeals [exDealProspect] (65 * 86400000))
    ∧ 21 ≤ (⟨exDealProspect, 65⟩ : AtRiskDeal).daysSinceUpdate :=
  ⟨by with_unfolding_all decide,
   ((C6_at_risk [exDealProspect] (65 * 86400000)).2.2.1 ⟨exDealProspect, 65⟩
     (by with_unfolding_all decide)).2.1⟩

/-- C3: for a nonempty deal list the Forecast Estimator assigns the deal at
index `i` to forward month `i % 3` (not by `expected_close_date`), each deal
contributing `value * (probability/100) * stageWeight(stage)`, with the fixed
weight table and 0.5 for a stage unrecognized after lowercasing; each month's
forecast is the sum of the contributions of the deals assigned to it and its
deal count the number of such deals. -/
theorem C3_forecast_round_robin (deals : List Deal) (h : deals ≠ []) :
    forecastData deals =
      [0, 1, 2].map (fun m =>
        { monthIndex := m,
          forecast := ∑ i : Fin deals.length,
            if i.val % 3 = m then
              (deals.get i).value * ((deals.get i).probability / 100)
                * stageWeight (deals.get i).stage
            else 0,
          dealCount := ∑ i : Fin deals.length,
            if i.val % 3 = m then 1 else 0 })
    ∧ stageWeight "prospect" = 1/10 ∧ stageWeight "qualified" = 3/10
    ∧ stageWeight "proposal" = 1/2 ∧ stageWeight "negotiation" = 7/10
    ∧ stageWeight "closed_won" = 1 ∧ stageWeight "closed_lost" = 0
    ∧ (∀ s : String, s.toLower ∉ ["prospect", "qualified", "proposal",
        "negotiation", "closed_won", "closed_lost"] → stageWeight s = 1/2) := by
  refine ⟨forecastData_eq deals h,
    by with_unfolding_all decide, by with_unfolding_all decide,
    by with_unfolding_all decide, by with_unfolding_all decide,
    by with_unfolding_all decide, by with_unfolding_all decide, ?_⟩
  intro s hs
  have h1 : s.toLower ≠ "prospect" := fun hc => hs (by rw [hc]; decide)
  have h2 : s.toLower ≠ "qualified" := fun hc => hs (by rw [hc]; decide)
  have h3 : s.toLower ≠ "proposal" := fun hc => hs (by rw [hc]; decide)
  have h4 : s.toLower ≠ "negotiation" := fun hc => hs (by rw [hc]; decide)
  have h5 : s.toLower ≠ "closed_won" := fun hc => hs (by rw [hc]; decide)
  have h6 : s.toLower ≠ "closed_lost" := fun hc => hs (by rw [hc]; decide)
  simp [stageWeight, h1, h2, h3, h4, h5, h6]

theorem C3_witness :
    ([exDealWonCA] : List Deal) ≠ []
    ∧ forecastData [exDealWonCA] =
      [0, 1, 2].map (fun m =>
        { monthIndex := m,
          forecast := ∑ i : Fin ([exDealWonCA] : List Deal).length,
            if i.val % 3 = m then
              (([exDealWonCA] : List Deal).get i).value
                * ((([exDealWonCA] : List Deal).get i).probability / 100)
                * stageWeight (([exDealWonCA] : List Deal).get i).stage
            else 0,
          dealCount := ∑ i : Fin ([exDealWonCA] : List Deal).length,
            if i.val % 3 = m then 1 else 0 }) :=
  ⟨by with_unfolding_all decide,
   (C3_forecast_round_robin [exDealWonCA] (by with_unfolding_all decide)).1⟩

/-- C7: the Velocity Estimator emits, in the fixed order `stageOrder`
restricted to stages present in the input, one row per stage whose `avgDays`
is the mean of `daysInStage` over that stage's deals; the overall average is
the deal-count-weighted mean of the per-stage averages, which equals the plain
mean of `daysInStage` over the deals whose stage is recognized. -/
theorem C7_velocity (deals : List Deal) :
    stageVelocityData deals =
      (stageOrder.filter
          (fun st => deals.countP (fun d => d.stage = st) ≠ 0)).map
        (fun st =>
          { stage := st,
            avgDays := ((deals.filter (fun d => d.stage = st)).map
                (fun d => (daysInStage d : ℚ))).sum
              / (deals.countP (fun d => d.stage = st) : ℚ),
            dealCount := deals.countP (fun d => d.stage = st) })
    ∧ overallAvgVelocity deals =
      (if deals.countP (fun d => d.stage ∈ stageOrder) = 0 then 0
       else ((deals.filter (fun d => d.stage ∈ stageOrder)).map
              (fun d => (daysInStage d : ℚ))).sum
           / (deals.countP (fun d => d.stage ∈ stageOrder) : ℚ))
    ∧ (stageVelocityData deals ≠ [] →
        overallAvgVelocity deals =
          ((stageVelocityData deals).map
            (fun r => r.avgDays * (r.dealCount : ℚ))).sum
          / (((((stageVelocityData deals).map
              (fun r => r.dealCount)).sum : ℕ)) : ℚ)) := by
  refine ⟨stageVelocityData_eq deals, overallAvgVelocity_eq deals, ?_⟩
  intro hne
  simp only [overallAvgVelocity]
  rw [if_neg hne]
  have hpos : 0 < ((stageVelocityData deals).map (fun r => r.dealCount)).sum := by
    obtain ⟨r, hr⟩ := List.exists_mem_of_ne_nil _ hne
    have hrc : r.dealCount ≠ 0 := by
      rw [stageVelocityData_eq] at hr
      obtain ⟨st, hst, hrec⟩ := List.mem_map.mp hr
      have hc := List.of_mem_filter hst
      rw [← hrec]
      simpa using hc
    have hmem : r.dealCount
        ∈ (stageVelocityData deals).map (fun r => r.dealCount) :=
      List.mem_map_of_mem _ hr
    have hle := List.single_le_sum
      (fun (x : ℕ) _ => Nat.zero_le x) _ hmem
    omega
  rw [foldl_add_map_sum, foldl_add_map_sum]
  simp only [zero_add, Nat.zero_add]
  rw [if_pos hpos]

theorem C7_witness :
    overallAvgVelocity [exDealQualified]
      = ((stageVelocityData [exDealQualified]).map
          (fun r => r.avgDays * (r.dealCount : ℚ))).sum
        / (((((stageVelocityData [exDealQualified]).map
            (fun r => r.dealCount)).sum : ℕ)) : ℚ) :=
  (C7_velocity [exDealQualified]).2.2 (by with_unfolding_all decide)

/-! ### Permutation invariance (C2) -/

/-- C2 as stated is false on the code: swapping two deals changes the Forecast
Estimator's per-month forecast sums, because deals are assigned to months by
list index mod 3. Here deal `cxDealA` (weighted contribution 100) and
`cxDealB` (contribution 0) swap months under the permutation. -/
theorem C2_counterexample :
    ([cxDealA, cxDealB] : List Deal).Perm [cxDealB, cxDealA]
    ∧ forecastData [cxDealA, cxDealB] ≠ forecastData [cxDealB, cxDealA] := by
  constructor
  · decide
  · with_unfolding_all decide

/-- C2 (amended): for every permutation of the deal list, the Win-Rate,
Territory, Stage, Velocity and Risk aggregators produce the same grouped
totals — per-key buckets agree pointwise (including nested rep breakdowns),
list-valued buckets agree up to permutation — and the Forecast Estimator's
per-month deal counts are unchanged; its per-month forecast sums, however,
depend on the input order (positional round-robin) and are not preserved. -/
theorem C2_perm_invariance_amended (deals deals' : List Deal) (now : Int)
    (hp : deals.Perm deals') :
    (∀ k, alookup k (getWinRates deals).1 = alookup k (getWinRates deals').1)
    ∧ (∀ k, alookup k (getWinRates deals).2 = alookup k (getWinRates deals').2)
    ∧ (∀ t, (alookup t (getTerritoryAnalytics deals)).isSome
          = (alookup t (getTerritoryAnalytics deals')).isSome)
    ∧ (∀ t s s', alookup t (getTerritoryAnalytics deals) = some s →
        alookup t (getTerritoryAnalytics deals') = some s' →
        s.wins = s'.wins ∧ s.losses = s'.losses ∧ s.winRate = s'.winRate
          ∧ s.totalValue = s'.totalValue
          ∧ ∀ r, alookup r s.repBreakdown = alookup r s'.repBreakdown)
    ∧ (getStageAnalytics deals).1 = (getStageAnalytics deals').1
    ∧ (∀ st, (alookup st (getStageAnalytics deals).2).isSome
          = (alookup st (getStageAnalytics deals').2).isSome)
    ∧ (∀ st s s', alookup st (getStageAnalytics deals).2 = some s →
        alookup st (getStageAnalytics deals').2 = some s' →
        s.count = s'.count ∧ s.percentage = s'.percentage
          ∧ s.deals.Perm s'.deals)
    ∧ (forecastData deals).map (fun e => (e.monthIndex, e.dealCount))
        = (forecastData deals').map (fun e => (e.monthIndex, e.dealCount))
    ∧ stageVelocityData deals = stageVelocityData deals'
    ∧ overallAvgVelocity deals = overallAvgVelocity deals'
    ∧ (atRiskDeals deals now).Perm (atRiskDeals deals' now) := by
  have hlen := hp.length_eq
  have hcnt : ∀ p : Deal → Bool, deals.countP p = deals'.countP p :=
    fun p => List.Perm.countP_eq p hp
  have hfil : ∀ p : Deal → Bool, (deals.filter p).Perm (deals'.filter p) :=
    fun p => hp.filter p
  have hsum : ∀ (f : Deal → ℚ) (p : Deal → Bool),
      ((deals.filter p).map f).sum = ((deals'.filter p).map f).sum :=
    fun f p => ((hfil p).map f).sum_eq
  have hnil : ∀ p : Deal → Bool,
      (deals.filter p = []) ↔ (deals'.filter p = []) := by
    intro p
    rw [← List.length_eq_zero, ← List.length_eq_zero, (hfil p).length_eq]
  refine ⟨?_, ?_, ?_, ?_, ?_, ?_, ?_, ?_, ?_, ?_, ?_⟩
  · intro k
    rw [getWinRates_fst_lookup, getWinRates_fst_lookup, hcnt, hcnt, hcnt]
  · intro k
    rw [getWinRates_snd_lookup, getWinRates_snd_lookup, hcnt, hcnt, hcnt]
  · intro t
    rw [getTerritoryAnalytics_lookup, getTerritoryAnalytics_lookup, hcnt]
    by_cases h0 : deals'.countP (fun d => dealTerritory d = t) = 0
    · simp [h0]
    · simp [h0]
  · intro t s s' hs hs'
    obtain ⟨_, hw, hl, hrate, hval, hrep⟩ :=
      getTerritoryAnalytics_some deals t s hs
    obtain ⟨_, hw', hl', hrate', hval', hrep'⟩ :=
      getTerritoryAnalytics_some deals' t s' hs'
    have hwe : s.wins = s'.wins := by rw [hw, hw', hcnt]
    have hle : s.losses = s'.losses := by rw [hl, hl', hcnt]
    refine ⟨hwe, hle, ?_, ?_, ?_⟩
    · rw [hrate, hrate', hwe, hle]
    · rw [hval, hval']
      exact hsum Deal.value _
    · intro r
      rw [hrep r, hrep' r, hcnt, hcnt, hcnt]
  · exact hlen
  · intro st
    rw [getStageAnalytics_snd_lookup, getStageAnalytics_snd_lookup]
    by_cases h : deals.filter (fun d => d.stage = st) = []
    · rw [if_pos h, if_pos ((hnil _).mp h)]
    · rw [if_neg h, if_neg (fun hc => h ((hnil _).mpr hc))]
      rfl
  · intro st s s' hs hs'
    rw [getStageAnalytics_snd_lookup] at hs hs'
    by_cases h : deals.filter (fun d => d.stage = st) = []
    · rw [if_pos h] at hs
      exact absurd hs (by simp)
    · have h' : ¬deals'.filter (fun d => d.stage = st) = [] :=
        fun hc => h ((hnil _).mpr hc)
      rw [if_neg h] at hs
      rw [if_neg h'] at hs'
      have hsv := (Option.some_inj.mp hs).symm
      have hsv' := (Option.some_inj.mp hs').symm
      have hl2 := (hfil (fun d => d.stage = st)).length_eq
      refine ⟨?_, ?_, ?_⟩
      · rw [hsv, hsv']
        exact hl2
      · rw [hsv, hsv']
        show (if deals.length > 0 then
            jsRound (((deals.filter (fun d => d.stage = st)).length : ℚ)
              / (deals.length : ℚ) * 100)
          else 0) = _
        rw [hl2, hlen]
      · rw [hsv, hsv']
        exact hfil _
  · by_cases hd : deals = []
    · have hd' : deals' = [] := by
        rw [← List.length_eq_zero, ← hlen, hd]
        rfl
      rw [hd, hd']
    · have hd' : deals' ≠ [] := by
        intro hc
        apply hd
        rw [← List.length_eq_zero, hlen, hc]
        rfl
      rw [forecastData_eq deals hd, forecastData_eq deals' hd',
        List.map_map, List.map_map]
      apply List.map_congr_left
      intro m _
      show (m, ∑ i : Fin deals.length, if i.val % 3 = m then 1 else 0)
        = (m, ∑ i : Fin deals'.length, if i.val % 3 = m then 1 else 0)
      rw [hlen]
  · rw [stageVelocityData_eq, stageVelocityData_eq]
    have hfe : stageOrder.filter
          (fun st => deals.countP (fun d => d.stage = st) ≠ 0)
        = stageOrder.filter
            (fun st => deals'.countP (fun d => d.stage = st) ≠ 0) := by
      apply List.filter_congr
      intro st _
      rw [hcnt]
    rw [hfe]
    apply List.map_congr_left
    intro st _
    rw [hcnt, hsum]
  · rw [overallAvgVelocity_eq, overallAvgVelocity_eq, hcnt, hsum]
  · exact (atRiskDeals_perm_filter deals now).trans
      (((hfil _).map _).trans (atRiskDeals_perm_filter deals' now).symm)

theorem C2_witness :
    stageVelocityData [exDealWonCA, exDealLostTX]
      = stageVelocityData [exDealLostTX, exDealWonCA] :=
  (C2_perm_invariance_amended [exDealWonCA, exDealLostTX]
    [exDealLostTX, exDealWonCA] 0
    (by decide)).2.2.2.2.2.2.2.2.1

end RV

